import Mathlib

/-!
Verification of go-cmdexec: a shallow embedding of the command-execution
library (shell quoter, single-attempt process runner, retry controller,
output capping, and bounded-concurrency fan-out) together with theorems
about the properties the library is supposed to satisfy.

Each definition is translated from the Go source:
  - command_builder.go : shellQuote, buildShellCommand
  - types.go           : ToolConfig, ToolConfig.Validate, error types
  - the executor file  : Execute, executeOnce, handleTimeout,
                         processExecutionError, buildExecutionResult,
                         limitedWriter, executeCommand capture wiring,
                         buildCommandString
  - concurrent executor: ExecuteConcurrent (semaphore-bounded fan-out)

Machine integers (Go int / int64 / time.Duration) are modelled as Int;
byte streams as List Nat; OS-level nondeterminism (what cmd.Run returns,
context states observed at each check, goroutine interleavings) is made
explicit as world / schedule parameters.
-/

namespace Cmdexec

/-! ## Shell quoter (command_builder.go) -/

/-- The single-quote character. -/
def squote : Char := Char.ofNat 39

/-- The double-quote character. -/
def dquote : Char := Char.ofNat 34

/-- The dollar character. -/
def dollarc : Char := Char.ofNat 36

/-- The backtick character. -/
def backtickc : Char := Char.ofNat 96

/-- The backslash character. -/
def backslashc : Char := Char.ofNat 92

/-- Character-level worker for shellQuote.  Go computes
`strings.ReplaceAll(s, sq, sq+dq+sq+dq+sq)`; since the pattern is the single
character `squote`, ReplaceAll is exactly this character-wise expansion:
each single quote closes the quoted run, emits a double-quoted literal
quote, and reopens a new quoted run. -/
def shellQuoteChars : List Char → List Char
  | [] => []
  | c :: rest =>
    (if c = squote then [squote, dquote, squote, dquote, squote] else [c])
      ++ shellQuoteChars rest

/-- shellQuote from command_builder.go: wrap the string in single quotes,
expanding every embedded single quote. -/
def shellQuote (s : String) : String :=
  String.mk (squote :: (shellQuoteChars s.toList ++ [squote]))

/-- buildShellCommand from command_builder.go: every token (the command and
each argument) is independently shell-quoted, then joined by spaces. -/
def buildShellCommand (command : String) (args : List String) : String :=
  String.intercalate " " (shellQuote command :: args.map shellQuote)

/-- Characters that a POSIX shell treats specially outside of quotes
(metacharacters, expansion introducers, globbing, escapes).  A token that
contains one of these unquoted is not read back as a single literal word. -/
def shellSpecialUnquoted (c : Char) : Bool :=
  c = ' ' || c = '\t' || c = '\n' || c = ';' || c = '|' || c = '&' ||
  c = '<' || c = '>' || c = '(' || c = ')' || c = '*' || c = '?' ||
  c = '[' || c = '#' || c = '~' ||
  c = dollarc || c = backtickc || c = backslashc || c = squote || c = dquote

/-- Quoting state of the shell reader: outside quotes, inside single
quotes, inside double quotes. -/
inductive QState
  | unq
  | sq
  | dq
  deriving DecidableEq, Repr

/-- Modelled from the environment (POSIX sh word reading): reads one word,
returning the literal text the shell would hand to the command (`echo` then
reproduces it byte for byte), or `none` when the word is unterminated or
contains a construct that the shell would expand or interpret (so the text
would not survive the round trip literally).  Inside single quotes every
character is literal; inside double quotes the characters dollar, backtick
and backslash keep special meaning and are conservatively rejected. -/
def shellReadWord : QState → List Char → Option (List Char)
  | .unq, [] => some []
  | .unq, c :: rest =>
    if c = squote then shellReadWord .sq rest
    else if c = dquote then shellReadWord .dq rest
    else if shellSpecialUnquoted c then none
    else (shellReadWord .unq rest).map (c :: ·)
  | .sq, [] => none
  | .sq, c :: rest =>
    if c = squote then shellReadWord .unq rest
    else (shellReadWord .sq rest).map (c :: ·)
  | .dq, [] => none
  | .dq, c :: rest =>
    if c = dquote then shellReadWord .unq rest
    else if c = dollarc ∨ c = backtickc ∨ c = backslashc then none
    else (shellReadWord .dq rest).map (c :: ·)

/-! ## Shared data model (types.go, the result type, the executor file) -/

/-- The value of ctx.Err() for a Go context at some observation point:
nil, context.Canceled, or context.DeadlineExceeded. -/
inductive CtxErr
  | noErr
  | canceled
  | deadlineExceeded
  deriving DecidableEq, Repr

/-- Classification of a non-nil error returned by cmd.Run(), as
discriminated by processExecutionError: resolving the executable failed
(errors.Is exec.ErrNotFound), a context error (errors.Is context.Canceled /
context.DeadlineExceeded), a process exit captured by *exec.ExitError
carrying an exit code, or any other system/I-O failure. -/
inductive RunErr
  | notFound
  | canceled
  | deadlineExceeded
  | exitError (code : Int)
  | other (msg : String)
  deriving DecidableEq, Repr

/-- ToolConfig from types.go.  Durations (Timeout, RetryDelay) are Int
nanoseconds; MaxStdoutBytes / MaxStderrBytes are Int (Go int64).  Stdin is
modelled by its presence (the reader itself is opaque); CommandValidator
returns `some reason` to block the command and `none` to allow it.
The CommandBuilder / StdoutWriter / StderrWriter fields select the
invocation strategy and tee sinks; they do not affect any of the
behaviour modelled here (capture buffers are populated either way), so
they are not carried. -/
structure ToolConfig where
  Command : String
  Args : List String := []
  WorkingDir : String := ""
  Timeout : Int := 0
  MaxRetries : Int := 0
  RetryDelay : Int := 0
  Env : List (String × String) := []
  Stdin : Bool := false
  CommandValidator : Option (String → List String → Option String) := none
  MaxStdoutBytes : Int := 0
  MaxStderrBytes : Int := 0

/-- ExecutionResult from the result-type file.  Timestamps are abstract
Int instants. -/
structure ExecutionResult where
  Command : String
  Args : List String
  WorkingDir : String
  Output : String
  Stderr : String
  ExitCode : Int
  Error : String := ""
  StartTime : Int := 0
  EndTime : Int := 0
  TimedOut : Bool := false
  StdoutTruncated : Bool := false
  StderrTruncated : Bool := false
  deriving DecidableEq, Repr

/-- The typed errors a single attempt (executeOnce) can return:
*TimeoutError, *ExecutableNotFoundError, a context error passed through
unchanged by processExecutionError, or the wrapped catch-all
(fmt.Errorf with the command name) for unknown execution errors. -/
inductive AttemptError
  | timeoutErr (Command : String) (Timeout : Int)
  | executableNotFound (Command : String)
  | ctxError (e : RunErr)
  | wrappedSystem (Command : String) (underlying : RunErr)
  deriving DecidableEq, Repr

/-- The LastError field of RetryExhaustedError: either the last attempt
error, or (when the last attempt produced a result) the constructed
error "command exited with code %d", or the result Error field text. -/
inductive RetryLastError
  | fromAttempt (e : AttemptError)
  | exitedWithCode (code : Int)
  | fromResultError (msg : String)
  deriving DecidableEq, Repr

/-- Every error Execute can return: *ValidationError,
*CommandNotAllowedError, an attempt-level typed error, the two
"context done" wrap errors from the retry loop, and *RetryExhaustedError
(Command / Attempts / LastError fields as in types.go). -/
inductive ExecError
  | validation (Field Message : String)
  | commandNotAllowed (Command Reason : String)
  | attempt (e : AttemptError)
  | contextDone (inner : CtxErr)
  | contextDoneDuringRetryDelay (inner : CtxErr)
  | retryExhausted (Command : String) (Attempts : Int) (LastError : RetryLastError)
  deriving DecidableEq, Repr

/-- ToolConfig.Validate from types.go, check for check in source order.
`none` means the config is valid. -/
def ToolConfig.Validate (tc : ToolConfig) : Option ExecError :=
  if tc.Command = "" then
    some (.validation "Command" "command cannot be empty")
  else if tc.MaxRetries < 0 then
    some (.validation "MaxRetries" "maxRetries cannot be negative")
  else if tc.RetryDelay < 0 then
    some (.validation "RetryDelay" "retryDelay cannot be negative")
  else if tc.Timeout < 0 then
    some (.validation "Timeout" "timeout cannot be negative")
  else if tc.MaxStdoutBytes < 0 then
    some (.validation "MaxStdoutBytes" "maxStdoutBytes cannot be negative")
  else if tc.MaxStderrBytes < 0 then
    some (.validation "MaxStderrBytes" "maxStderrBytes cannot be negative")
  else
    match tc.CommandValidator with
    | some f =>
      match f tc.Command tc.Args with
      | some reason => some (.commandNotAllowed tc.Command reason)
      | none => none
    | none => none

/-- Go %q on a string (strconv.Quote) restricted to the escapes relevant
here: backslash and double quote are escaped; control-character escapes
are not modelled (no claim depends on them). -/
def goQuote (s : String) : String :=
  String.mk (dquote ::
    (s.toList.flatMap (fun c =>
      if c = dquote || c = backslashc then [backslashc, c] else [c])
      ++ [dquote]))

/-- buildCommandString from the executor file: the display form of a
command, quoting only arguments that contain a space. -/
def buildCommandString (command : String) (args : List String) : String :=
  String.intercalate " "
    (command :: args.map (fun arg => if arg.contains ' ' then goQuote arg else arg))

/-! ## Single attempt (executeOnce and its helpers) -/

/-- The fields of executeCommandResult: what one call of executeCommand
produced — captured stdout/stderr text, the start/end instants, the
per-stream truncation flags, and the error from cmd.Run (none = nil). -/
structure executeCommandResult where
  stdout : String
  stderr : String
  startTime : Int := 0
  endTime : Int := 0
  stdoutTrunc : Bool := false
  stderrTrunc : Bool := false
  err : Option RunErr

/-- What the OS gave one execution attempt: the executeCommandResult that
cmd.Run produced, plus the value execCtx.Err() had when handleTimeout
observed it. -/
structure AttemptBehavior where
  cr : executeCommandResult
  execCtxErr : CtxErr

/-- The environment of a whole Execute call: the behaviour of each
numbered attempt (1-based), the ambient ctx.Err() at the retry-loop check
after each attempt, and whether / with which ctx.Err() the select in the
inter-attempt delay was won by ctx.Done(). -/
structure World where
  attempt : Nat → AttemptBehavior
  ambientErr : Nat → CtxErr
  delayInterrupted : Nat → Bool
  ambientErrAtDelay : Nat → CtxErr

/-- handleTimeout from the executor file: the attempt timed out when
cmd.Run failed, the execution context reports DeadlineExceeded, and a
positive Timeout was configured. -/
def handleTimeout (ctxErr : CtxErr) (err : Option RunErr) (cfg : ToolConfig) : Bool :=
  decide (err ≠ none ∧ ctxErr = CtxErr.deadlineExceeded ∧ 0 < cfg.Timeout)

/-- processExecutionError from the executor file: nil error means exit
code 0; ErrNotFound becomes *ExecutableNotFoundError; context errors are
returned unchanged; *exec.ExitError yields its exit code; anything else
is wrapped with the command name. -/
def processExecutionError (err : Option RunErr) (command : String) :
    Except AttemptError Int :=
  match err with
  | none => .ok 0
  | some e =>
    if e = .notFound then .error (.executableNotFound command)
    else if e = .canceled ∨ e = .deadlineExceeded then .error (.ctxError e)
    else
      match e with
      | .exitError code => .ok code
      | _ => .error (.wrappedSystem command e)

/-- buildExecutionResult from the executor file.  The Error field is left
at its zero value and TimedOut is the literal false. -/
def buildExecutionResult (cfg : ToolConfig) (cr : executeCommandResult)
    (exitCode : Int) : ExecutionResult :=
  { Command := cfg.Command
    Args := cfg.Args
    WorkingDir := cfg.WorkingDir
    Output := cr.stdout
    Stderr := cr.stderr
    ExitCode := exitCode
    Error := ""
    StartTime := cr.startTime
    EndTime := cr.endTime
    TimedOut := false
    StdoutTruncated := cr.stdoutTrunc
    StderrTruncated := cr.stderrTrunc }

/-- executeOnce from the executor file: run one attempt (whose raw result
and context observation the world supplies), classify a timeout first,
then classify the run error, and otherwise build the result. -/
def executeOnce (cfg : ToolConfig) (b : AttemptBehavior) :
    Except AttemptError ExecutionResult :=
  if handleTimeout b.execCtxErr b.cr.err cfg then
    .error (.timeoutErr (buildCommandString cfg.Command cfg.Args) cfg.Timeout)
  else
    match processExecutionError b.cr.err cfg.Command with
    | .error e => .error e
    | .ok exitCode => .ok (buildExecutionResult cfg b.cr exitCode)

/-! ## Retry controller (Execute) -/

/-- Recognizes *ExecutableNotFoundError (the type assertion in the retry
loop). -/
def isNotFoundError : AttemptError → Bool
  | .executableNotFound _ => true
  | _ => false

/-- Recognizer for *TimeoutError. -/
def isTimeoutError : AttemptError → Bool
  | .timeoutErr _ _ => true
  | _ => false

/-- Recognizer for *RetryExhaustedError. -/
def isRetryExhaustedError : ExecError → Bool
  | .retryExhausted _ _ _ => true
  | _ => false

/-- Whether an error Execute returns is a cancellation classification: the
context error itself passed through an attempt, or one of the two
context-done wraps whose %w chain bottoms out at ctx.Err() (so errors.Is
against context.Canceled / context.DeadlineExceeded succeeds).  A
TimeoutError, NotFound, wrapped system error or RetryExhaustedError is
not. -/
def execErrorIsCancellation : ExecError → Bool
  | .attempt (.ctxError _) => true
  | .contextDone _ => true
  | .contextDoneDuringRetryDelay _ => true
  | _ => false

/-- The LastError the exhaustion path constructs from the last attempt:
the attempt error itself, or for an outcome the result Error text when
non-empty, else "command exited with code %d". -/
def retryLastErrorOf : Except AttemptError ExecutionResult → RetryLastError
  | .error e => .fromAttempt e
  | .ok res =>
    if res.Error ≠ "" then .fromResultError res.Error
    else .exitedWithCode res.ExitCode

/-- The error built after the loop exhausts all attempts (the code after
the for loop in Execute).  `last` is the stored lastResult/lastErr pair;
`none` is unreachable because the loop body runs at least once whenever
maxAttempts is at least 1. -/
def exhaustedError (cfg : ToolConfig) (maxAttempts : Int)
    (last : Option (Except AttemptError ExecutionResult)) : ExecError :=
  match last with
  | some r =>
    .retryExhausted (buildCommandString cfg.Command cfg.Args) maxAttempts
      (retryLastErrorOf r)
  | none =>
    .retryExhausted (buildCommandString cfg.Command cfg.Args) maxAttempts
      (.exitedWithCode 0)

/-- The retry loop of Execute.  Fuel counts the attempts still allowed
(so the loop test `attempt <= maxAttempts` is fuel > 0); `i` is the
1-based attempt number; `last` is the stored last attempt.  Per iteration,
in source order: success returns the result; *ExecutableNotFoundError
returns immediately; a non-nil ambient ctx.Err() aborts (returning the
attempt error when there is one, else the "context done" wrap); otherwise
the attempt is stored and, when attempts remain and a positive RetryDelay
is configured, the delay select may be won by ctx.Done(), returning the
"context done during retry delay" wrap. -/
def retryLoop (cfg : ToolConfig) (w : World) :
    Nat → Nat → Option (Except AttemptError ExecutionResult) →
    Except ExecError ExecutionResult
  | 0, _, last => .error (exhaustedError cfg (1 + cfg.MaxRetries) last)
  | n + 1, i, _ =>
    let r := executeOnce cfg (w.attempt i)
    match r with
    | .ok result =>
      if result.ExitCode = 0 then .ok result
      else if w.ambientErr i ≠ .noErr then .error (.contextDone (w.ambientErr i))
      else if n ≠ 0 ∧ 0 < cfg.RetryDelay ∧ w.delayInterrupted i then
        .error (.contextDoneDuringRetryDelay (w.ambientErrAtDelay i))
      else retryLoop cfg w n (i + 1) (some r)
    | .error e =>
      if isNotFoundError e then .error (.attempt e)
      else if w.ambientErr i ≠ .noErr then .error (.attempt e)
      else if n ≠ 0 ∧ 0 < cfg.RetryDelay ∧ w.delayInterrupted i then
        .error (.contextDoneDuringRetryDelay (w.ambientErrAtDelay i))
      else retryLoop cfg w n (i + 1) (some r)

/-- Execute from the executor file: validate, then either the no-retry
fast path (one attempt, returned verbatim) or the retry loop with
maxAttempts = 1 + MaxRetries. -/
def Execute (cfg : ToolConfig) (w : World) : Except ExecError ExecutionResult :=
  match cfg.Validate with
  | some e => .error e
  | none =>
    if cfg.MaxRetries = 0 then
      (executeOnce cfg (w.attempt 1)).mapError ExecError.attempt
    else
      retryLoop cfg w (1 + cfg.MaxRetries).toNat 1 none

/-- One attempt of the session neither succeeded (exit code 0) nor hit the
not-found short circuit: the loop treats it as a retryable failure. -/
def attemptFails (cfg : ToolConfig) (w : World) (i : Nat) : Prop :=
  match executeOnce cfg (w.attempt i) with
  | .ok res => res.ExitCode ≠ 0
  | .error e => isNotFoundError e = false

/-- No cancellation was observed around attempt `i`: the ambient context
was not done at the post-attempt check, and the delay select (if any) was
not won by ctx.Done(). -/
def noCancellation (w : World) (i : Nat) : Prop :=
  w.ambientErr i = .noErr ∧ w.delayInterrupted i = false

/-! ## Output capping (limitedWriter and the capture wiring) -/

/-- limitedWriter from the executor file: the underlying bytes.Buffer
contents accumulated so far, the remaining budget `n` (int64), and the
truncation flag. -/
structure limitedWriter where
  buf : List Nat
  n : Int
  truncated : Bool

/-- limitedWriter.Write: with no budget left, mark truncation and claim
the whole chunk; with a chunk longer than the budget, forward the prefix,
zero the budget, mark truncation, and claim the whole chunk; otherwise
forward everything and decrease the budget.  (bytes.Buffer writes never
fail, so the underlying-error path is not taken.) -/
def limitedWriter.Write (lw : limitedWriter) (p : List Nat) : limitedWriter × Nat :=
  if lw.n ≤ 0 then
    ({ lw with truncated := true }, p.length)
  else if lw.n < (p.length : Int) then
    ({ buf := lw.buf ++ p.take lw.n.toNat, n := 0, truncated := true }, p.length)
  else
    ({ buf := lw.buf ++ p, n := lw.n - p.length, truncated := lw.truncated }, p.length)

/-- The capture wiring of executeCommand for one stream: with a positive
cap the stream is written through a limitedWriter with budget maxBytes
(chunk by chunk, as the process produces them) and the truncation flag is
read off afterwards; with no cap the plain buffer receives everything. -/
def captureStream (maxBytes : Int) (chunks : List (List Nat)) : List Nat × Bool :=
  if 0 < maxBytes then
    let lw := chunks.foldl (fun lw p => (limitedWriter.Write lw p).1)
      { buf := [], n := maxBytes, truncated := false }
    (lw.buf, lw.truncated)
  else
    (chunks.flatten, false)

/-- executeCommand's output handling: stdout is capped by MaxStdoutBytes
and stderr by MaxStderrBytes, independently.  The chunk lists are the
write sequences the process issues on each stream. -/
def executeCommandCapture (cfg : ToolConfig)
    (stdoutChunks stderrChunks : List (List Nat)) :
    (List Nat × Bool) × (List Nat × Bool) :=
  (captureStream cfg.MaxStdoutBytes stdoutChunks,
   captureStream cfg.MaxStderrBytes stderrChunks)

/-! ## Bounded-concurrency fan-out (the concurrent executor) -/

/-- ConcurrentResult from the concurrent executor: original index, the
config, and the (result, error) pair from the wrapped Execute call. -/
structure ConcurrentResult where
  Index : Nat
  Config : ToolConfig
  Result : Option ExecutionResult
  Error : Option ExecError

/-- Packs one Execute return value into the ConcurrentResult stored at
index `i`. -/
def toConcurrentResult (i : Nat) (cfg : ToolConfig)
    (r : Except ExecError ExecutionResult) : ConcurrentResult :=
  match r with
  | .ok res => { Index := i, Config := cfg, Result := some res, Error := none }
  | .error e => { Index := i, Config := cfg, Result := none, Error := some e }

/-- Where one fan-out goroutine is in its body: before acquiring the
semaphore, holding a slot but not yet having stored its result, having
stored its result (still holding the slot), or finished (slot released).
A task is physically in flight between acquire and release. -/
inductive TaskPhase
  | pending
  | acquired
  | written
  | released
  deriving DecidableEq, Repr

/-- The shared state of one ExecuteConcurrent call: the occupancy of the
semaphore channel, each task's phase, and the results slice (None for a
slot not yet written). -/
structure FanoutState where
  sem : Nat
  phases : List TaskPhase
  results : List (Option ConcurrentResult)

/-- The normalization at the top of ExecuteConcurrent: a bound of at most
zero becomes 1. -/
def normConcurrency (maxConcurrency : Int) : Int :=
  if maxConcurrency ≤ 0 then 1 else maxConcurrency

/-- One scheduler step of task `t`: a pending task acquires a semaphore
slot if one is free (`semaphore <- struct{}{}` blocks otherwise, modelled
as no state change); an acquired task runs its config through the wrapped
executor and stores the ConcurrentResult at its own index; a written task
releases its slot.  `run t cfg` is the (result, error) pair the wrapped
executor returns to task `t`. -/
def fanoutStep (cap : Nat) (configs : List ToolConfig)
    (run : Nat → ToolConfig → Except ExecError ExecutionResult)
    (s : FanoutState) (t : Nat) : FanoutState :=
  match s.phases[t]? with
  | some .pending =>
    if s.sem < cap then
      { s with sem := s.sem + 1, phases := s.phases.set t .acquired }
    else s
  | some .acquired =>
    match configs[t]? with
    | some cfg =>
      { s with phases := s.phases.set t .written,
               results := s.results.set t (some (toConcurrentResult t cfg (run t cfg))) }
    | none => s
  | some .written =>
    { s with sem := s.sem - 1, phases := s.phases.set t .released }
  | _ => s

/-- The state before any goroutine has run: empty semaphore, every task
pending, every results slot unwritten. -/
def fanoutInit (n : Nat) : FanoutState :=
  { sem := 0, phases := List.replicate n .pending, results := List.replicate n none }

/-- Runs a whole schedule (an arbitrary interleaving of task steps) from
the initial state. -/
def fanoutRun (cap : Nat) (configs : List ToolConfig)
    (run : Nat → ToolConfig → Except ExecError ExecutionResult)
    (sched : List Nat) : FanoutState :=
  sched.foldl (fanoutStep cap configs run) (fanoutInit configs.length)

/-- ExecuteConcurrent from the concurrent executor: empty input returns
the empty slice at once; otherwise the semaphore capacity is the
normalized bound and the goroutines run under some interleaving until
wg.Wait returns, after which the results slice is handed back. -/
def ExecuteConcurrent (configs : List ToolConfig) (maxConcurrency : Int)
    (run : Nat → ToolConfig → Except ExecError ExecutionResult)
    (sched : List Nat) : List (Option ConcurrentResult) :=
  if configs.length = 0 then []
  else (fanoutRun (normConcurrency maxConcurrency).toNat configs run sched).results

/-- The number of tasks physically in flight (between semaphore acquire
and release). -/
def countRunning (phases : List TaskPhase) : Nat :=
  phases.countP (fun p => p == .acquired || p == .written)

/-- The results slice ExecuteConcurrent is supposed to return: at every
index `i`, exactly the ConcurrentResult for input `i`. -/
def expectedResults (configs : List ToolConfig)
    (run : Nat → ToolConfig → Except ExecError ExecutionResult) :
    List (Option ConcurrentResult) :=
  (List.range configs.length).map
    (fun i => (configs[i]?).map (fun cfg => toConcurrentResult i cfg (run i cfg)))

/-- The invariant of the fan-out state: list lengths are stable; a task
that has written (or finished) has exactly its own result at its own
index, one that has not yet run still has an empty slot; the semaphore
occupancy counts the in-flight tasks and never exceeds the capacity. -/
def FanoutInv (cap : Nat) (configs : List ToolConfig)
    (run : Nat → ToolConfig → Except ExecError ExecutionResult)
    (s : FanoutState) : Prop :=
  s.phases.length = configs.length ∧
  s.results.length = configs.length ∧
  (∀ t, t < configs.length →
    ((s.phases[t]? = some .written ∨ s.phases[t]? = some .released) →
      ∀ cfg, configs[t]? = some cfg →
        s.results[t]? = some (some (toConcurrentResult t cfg (run t cfg)))) ∧
    ((s.phases[t]? = some .pending ∨ s.phases[t]? = some .acquired) →
      s.results[t]? = some none)) ∧
  s.sem = countRunning s.phases ∧
  s.sem ≤ cap

/-! ## Concrete inputs used by witnesses -/

/-- A clean run: some stdout, no error from cmd.Run. -/
def okCr : executeCommandResult := { stdout := "hi", stderr := "", err := none }

/-- A run that completed with exit status 3. -/
def exitCr : executeCommandResult :=
  { stdout := "", stderr := "boom", err := some (.exitError 3) }

/-- A clean attempt: clean run, execution context not done. -/
def okBehavior : AttemptBehavior := { cr := okCr, execCtxErr := .noErr }

/-- A non-zero-exit attempt with the execution context not done. -/
def exitBehavior : AttemptBehavior := { cr := exitCr, execCtxErr := .noErr }

/-- A world that shows the same attempt behaviour every time, with no
cancellation anywhere. -/
def steadyWorld (b : AttemptBehavior) : World :=
  { attempt := fun _ => b
    ambientErr := fun _ => .noErr
    delayInterrupted := fun _ => false
    ambientErrAtDelay := fun _ => .noErr }

/-- A world whose attempts fail with exit 3 and whose first inter-attempt
delay is interrupted by ambient cancellation. -/
def delayCancelWorld : World :=
  { attempt := fun _ => exitBehavior
    ambientErr := fun _ => .noErr
    delayInterrupted := fun _ => true
    ambientErrAtDelay := fun _ => .canceled }

/-- A world in which the first attempt hits its own deadline (the derived
context reports DeadlineExceeded while the run errors), and the ambient
context turns out to be cancelled by the time the retry loop checks it
after the attempt. -/
def cancelAfterTimeoutWorld : World :=
  { attempt := fun _ =>
      { cr := { stdout := "", stderr := "", err := some .deadlineExceeded }
        execCtxErr := .deadlineExceeded }
    ambientErr := fun _ => .canceled
    delayInterrupted := fun _ => false
    ambientErrAtDelay := fun _ => .canceled }

/-- A retrying config with a positive per-attempt timeout. -/
def timeoutRetryCfg : ToolConfig :=
  { Command := "sleep", Args := ["5"], Timeout := 5, MaxRetries := 1, RetryDelay := 10 }

/-- A minimal valid config with no retries. -/
def echoCfg : ToolConfig := { Command := "echo", Args := ["hi"] }

/-- A retrying config (2 retries, positive delay). -/
def retryCfg : ToolConfig :=
  { Command := "sh", Args := ["-c", "exit 1"], MaxRetries := 2, RetryDelay := 10 }

/-- A config with a positive per-attempt timeout. -/
def timeoutCfg : ToolConfig := { Command := "sleep", Args := ["5"], Timeout := 200 }

/-- The configuration the validation claim is about: a static stdin
reader combined with retries. -/
def staticStdinRetryCfg : ToolConfig :=
  { Command := "cat", Stdin := true, MaxRetries := 1 }

/-- A config capping stdout at 10 bytes and leaving stderr uncapped. -/
def capCfg : ToolConfig := { Command := "gen", MaxStdoutBytes := 10 }

/-- Two fan-out configs. -/
def fanCfgs : List ToolConfig := [{ Command := "a" }, { Command := "b" }]

/-- A wrapped-executor behaviour for the fan-out witness: task 0
succeeds, task 1 fails. -/
def fanRun (i : Nat) (cfg : ToolConfig) : Except ExecError ExecutionResult :=
  if i = 0 then .ok (buildExecutionResult cfg okCr 0)
  else .error (.attempt (.executableNotFound cfg.Command))

/-- A sequential schedule for the two fan-out tasks. -/
def fanSched : List Nat := [0, 0, 0, 1, 1, 1]

/-! # Theorems -/

/-! ## Shell quoting round trip (C3) -/

theorem squote_ne_dquote : squote ≠ dquote := by decide

theorem dquote_ne_squote : dquote ≠ squote := by decide

theorem squote_ne_dollarc : squote ≠ dollarc := by decide

theorem squote_ne_backtickc : squote ≠ backtickc := by decide

theorem squote_ne_backslashc : squote ≠ backslashc := by decide

/-- Reading the quoted body of a token from inside a single-quoted run
(with the closing quote appended) recovers the token. -/
theorem shellReadWord_sq_quoted (s : List Char) :
    shellReadWord .sq (shellQuoteChars s ++ [squote]) = some s := by
  induction s with
  | nil => simp [shellQuoteChars, shellReadWord]
  | cons c rest ih =>
    by_cases hc : c = squote
    · subst hc
      simp [shellQuoteChars, shellReadWord, ih, squote_ne_dquote, dquote_ne_squote,
        squote_ne_dollarc, squote_ne_backtickc, squote_ne_backslashc]
    · simp [shellQuoteChars, shellReadWord, hc, ih]

/-- C3: shell-strategy quoting is a round trip: for every token, including
tokens containing the shell metacharacters, the shell reads shellQuote of
the token back as exactly the original text (each embedded single quote is
handled by closing the quoted run, emitting a quoted literal quote, and
reopening a new run). -/
theorem shellQuote_roundTrip (s : String) :
    shellReadWord .unq (shellQuote s).toList = some s.toList := by
  have h := shellReadWord_sq_quoted s.toList
  show shellReadWord .unq (squote :: (shellQuoteChars s.toList ++ [squote])) = some s.toList
  simp only [shellReadWord, if_pos rfl]
  exact h

/-! ## Validation of static stdin with retries (C6) -/

/-- C6: contrary to the claim, ToolConfig.Validate accepts a configuration
that combines a static Stdin input with MaxRetries > 0, and Execute then
consumes the full attempt budget with that configuration instead of
rejecting it before any process is spawned (the README documents the
rejection, so this is evidence of a code bug at the failing input). -/
theorem validate_accepts_static_stdin_with_retries :
    staticStdinRetryCfg.Stdin = true ∧
    0 < staticStdinRetryCfg.MaxRetries ∧
    staticStdinRetryCfg.Validate = none ∧
    Execute staticStdinRetryCfg (steadyWorld exitBehavior) =
      .error (.retryExhausted "cat" 2 (.exitedWithCode 3)) := by
  refine ⟨rfl, by decide, rfl, rfl⟩

/-! ## Single attempt facts -/

/-- A successful executeOnce is exactly a buildExecutionResult for the
exit code computed by processExecutionError. -/
theorem executeOnce_ok (cfg : ToolConfig) (b : AttemptBehavior) (res : ExecutionResult)
    (h : executeOnce cfg b = .ok res) :
    ∃ code, processExecutionError b.cr.err cfg.Command = .ok code ∧
      res = buildExecutionResult cfg b.cr code := by
  unfold executeOnce at h
  by_cases ht : handleTimeout b.execCtxErr b.cr.err cfg = true
  · rw [if_pos ht] at h
    cases h
  · rw [if_neg ht] at h
    cases hp : processExecutionError b.cr.err cfg.Command with
    | error e => rw [hp] at h; cases h
    | ok code =>
      rw [hp] at h
      cases h
      exact ⟨code, rfl, rfl⟩

/-- C7: an attempt whose own timeout elapsed (run error present, the
execution context reports DeadlineExceeded, a positive Timeout is
configured) is classified as a TimeoutError with no outcome; when the
ambient context was cancelled instead (the derived context reports
Canceled, not DeadlineExceeded), the attempt yields the cancellation
error, which is not a TimeoutError. -/
theorem executeOnce_timeout_vs_cancellation (cfg : ToolConfig) (b : AttemptBehavior) :
    (b.cr.err ≠ none → b.execCtxErr = .deadlineExceeded → 0 < cfg.Timeout →
      executeOnce cfg b =
        .error (.timeoutErr (buildCommandString cfg.Command cfg.Args) cfg.Timeout)) ∧
    (b.execCtxErr = .canceled → b.cr.err = some .canceled →
      executeOnce cfg b = .error (.ctxError .canceled) ∧
      isTimeoutError (.ctxError .canceled) = false) := by
  constructor
  · intro h1 h2 h3
    have ht : handleTimeout b.execCtxErr b.cr.err cfg = true :=
      decide_eq_true ⟨h1, h2, h3⟩
    simp [executeOnce, ht]
  · intro hc herr
    have ht : handleTimeout b.execCtxErr (some RunErr.canceled) cfg = false := by
      simp [handleTimeout, hc]
    refine ⟨?_, rfl⟩
    simp [executeOnce, ht, processExecutionError, herr]

/-- Witness for C7: both classifications at concrete inputs. -/
theorem executeOnce_timeout_vs_cancellation_witness :
    executeOnce timeoutCfg
        { cr := { stdout := "", stderr := "", err := some .deadlineExceeded },
          execCtxErr := .deadlineExceeded } =
      .error (.timeoutErr (buildCommandString "sleep" ["5"]) 200) ∧
    executeOnce timeoutCfg
        { cr := { stdout := "", stderr := "", err := some .canceled },
          execCtxErr := .canceled } =
      .error (.ctxError .canceled) :=
  ⟨(executeOnce_timeout_vs_cancellation timeoutCfg _).1 (by decide) rfl (by decide),
   ((executeOnce_timeout_vs_cancellation timeoutCfg _).2 rfl rfl).1⟩

/-! ## The retry loop (C1, C10, C4, C5) -/

/-- C1: with MaxRetries = 0, Execute is the single attempt returned
verbatim, and an attempt that ran to completion with exit code `code`
(cmd.Run returned an ExitError, no deadline fired) yields a result
carrying that ExitCode with no error. -/
theorem execute_noRetries_exit_verbatim (cfg : ToolConfig) (w : World) (code : Int)
    (hv : cfg.Validate = none) (h0 : cfg.MaxRetries = 0)
    (herr : (w.attempt 1).cr.err = some (.exitError code))
    (hctx : (w.attempt 1).execCtxErr = .noErr) :
    Execute cfg w = (executeOnce cfg (w.attempt 1)).mapError ExecError.attempt ∧
    Execute cfg w = .ok (buildExecutionResult cfg (w.attempt 1).cr code) ∧
    (buildExecutionResult cfg (w.attempt 1).cr code).ExitCode = code := by
  have h1 : Execute cfg w = (executeOnce cfg (w.attempt 1)).mapError ExecError.attempt := by
    unfold Execute
    rw [hv, if_pos h0]
  have ht : handleTimeout (w.attempt 1).execCtxErr (some (RunErr.exitError code)) cfg = false := by
    simp [handleTimeout, hctx]
  have h2 : executeOnce cfg (w.attempt 1) =
      .ok (buildExecutionResult cfg (w.attempt 1).cr code) := by
    simp [executeOnce, ht, processExecutionError, herr]
  refine ⟨h1, ?_, rfl⟩
  rw [h1, h2]
  rfl

/-- Witness for C1: a single attempt exiting 3 surfaces as a result with
ExitCode 3 and no error. -/
theorem execute_noRetries_exit_verbatim_witness :
    Execute echoCfg (steadyWorld exitBehavior) =
      .ok (buildExecutionResult echoCfg exitCr 3) :=
  (execute_noRetries_exit_verbatim echoCfg (steadyWorld exitBehavior) 3
    rfl rfl rfl rfl).2.1

/-- Any success coming out of the retry loop is the success of one of the
attempts. -/
theorem retryLoop_ok (cfg : ToolConfig) (w : World) :
    ∀ (n i : Nat) (last : Option (Except AttemptError ExecutionResult))
      (res : ExecutionResult),
      retryLoop cfg w n i last = .ok res →
      ∃ j, executeOnce cfg (w.attempt j) = .ok res := by
  intro n
  induction n with
  | zero =>
    intro i last res h
    simp [retryLoop] at h
  | succ n ih =>
    intro i last res h
    rw [retryLoop] at h
    cases hE : executeOnce cfg (w.attempt i) with
    | ok result =>
      simp only [hE] at h
      by_cases hz : result.ExitCode = 0
      · rw [if_pos hz] at h
        cases h
        exact ⟨i, hE⟩
      · rw [if_neg hz] at h
        by_cases hamb : w.ambientErr i ≠ CtxErr.noErr
        · rw [if_pos hamb] at h; cases h
        · rw [if_neg hamb] at h
          by_cases hdel : n ≠ 0 ∧ 0 < cfg.RetryDelay ∧ w.delayInterrupted i
          · rw [if_pos hdel] at h; cases h
          · rw [if_neg hdel] at h
            exact ih _ _ _ h
    | error e =>
      simp only [hE] at h
      by_cases hnf : isNotFoundError e = true
      · rw [if_pos hnf] at h; cases h
      · rw [if_neg hnf] at h
        by_cases hamb : w.ambientErr i ≠ CtxErr.noErr
        · rw [if_pos hamb] at h; cases h
        · rw [if_neg hamb] at h
          by_cases hdel : n ≠ 0 ∧ 0 < cfg.RetryDelay ∧ w.delayInterrupted i
          · rw [if_pos hdel] at h; cases h
          · rw [if_neg hdel] at h
            exact ih _ _ _ h

/-- C10: every non-nil result Execute returns has TimedOut = false: a
timeout surfaces only as a TimeoutError with no result, never through the
TimedOut field. -/
theorem execute_ok_timedOut_false (cfg : ToolConfig) (w : World) (res : ExecutionResult)
    (h : Execute cfg w = .ok res) : res.TimedOut = false := by
  have hres : ∃ j, executeOnce cfg (w.attempt j) = .ok res := by
    unfold Execute at h
    cases hv : cfg.Validate with
    | some e => rw [hv] at h; cases h
    | none =>
      rw [hv] at h
      by_cases h0 : cfg.MaxRetries = 0
      · rw [if_pos h0] at h
        cases hE : executeOnce cfg (w.attempt 1) with
        | error e => rw [hE] at h; cases h
        | ok r =>
          rw [hE] at h
          cases h
          exact ⟨1, hE⟩
      · rw [if_neg h0] at h
        exact retryLoop_ok cfg w _ _ _ res h
  obtain ⟨j, hj⟩ := hres
  obtain ⟨code, _, hb⟩ := executeOnce_ok cfg (w.attempt j) res hj
  rw [hb]
  rfl

/-- Witness for C10: a clean echo run returns a result whose TimedOut
field is false. -/
theorem execute_ok_timedOut_false_witness :
    (buildExecutionResult echoCfg okCr 0).TimedOut = false :=
  execute_ok_timedOut_false echoCfg (steadyWorld okBehavior)
    (buildExecutionResult echoCfg okCr 0) rfl

/-- A failed attempt with no cancellation observed makes the loop move on
to the next attempt, storing the attempt as `last`. -/
theorem retryLoop_advance (cfg : ToolConfig) (w : World) (n i : Nat)
    (last : Option (Except AttemptError ExecutionResult))
    (hf : attemptFails cfg w i) (hnc : noCancellation w i) :
    retryLoop cfg w (n + 1) i last =
      retryLoop cfg w n (i + 1) (some (executeOnce cfg (w.attempt i))) := by
  obtain ⟨hamb, hdel⟩ := hnc
  rw [retryLoop]
  cases hE : executeOnce cfg (w.attempt i) with
  | ok result =>
    have hcode : result.ExitCode ≠ 0 := by
      unfold attemptFails at hf
      rw [hE] at hf
      exact hf
    simp [hE, hcode, hamb, hdel]
  | error e =>
    have hnf : isNotFoundError e = false := by
      unfold attemptFails at hf
      rw [hE] at hf
      exact hf
    simp [hE, hnf, hamb, hdel]

/-- When every attempt in the remaining budget fails without cancellation,
the loop runs the budget down and reports the exhaustion error built from
the very last attempt. -/
theorem retryLoop_all_fail (cfg : ToolConfig) (w : World) :
    ∀ (n i : Nat) (last : Option (Except AttemptError ExecutionResult)),
      n ≠ 0 →
      (∀ j, i ≤ j → j < i + n → attemptFails cfg w j ∧ noCancellation w j) →
      retryLoop cfg w n i last =
        .error (exhaustedError cfg (1 + cfg.MaxRetries)
          (some (executeOnce cfg (w.attempt (i + n - 1))))) := by
  intro n
  induction n with
  | zero => intro i last h; cases h rfl
  | succ n ih =>
    intro i last _ hall
    rw [retryLoop_advance cfg w n i last (hall i le_rfl (by omega)).1
      (hall i le_rfl (by omega)).2]
    cases Nat.eq_zero_or_pos n with
    | inl h0 =>
      subst h0
      rw [retryLoop]
      simp
    | inr hpos =>
      rw [ih (i + 1) (some (executeOnce cfg (w.attempt i))) (by omega)
        (fun j hj1 hj2 => hall j (by omega) (by omega))]
      have harith : i + 1 + n - 1 = i + (n + 1) - 1 := by omega
      rw [harith]

/-- C4: when MaxRetries > 0 and every one of the 1 + MaxRetries attempts
fails (non-zero exit or a retryable error) with no cancellation, Execute
returns the RetryExhaustedError whose Command is the display form of the
command, whose Attempts is 1 + MaxRetries, and whose LastError is the last
attempt error — constructed from the exit code when the last attempt
produced an outcome rather than an error. -/
theorem execute_retryExhausted (cfg : ToolConfig) (w : World)
    (hv : cfg.Validate = none) (hr : 0 < cfg.MaxRetries)
    (hall : ∀ j, 1 ≤ j → j ≤ (1 + cfg.MaxRetries).toNat →
      attemptFails cfg w j ∧ noCancellation w j) :
    Execute cfg w =
      .error (.retryExhausted (buildCommandString cfg.Command cfg.Args)
        (1 + cfg.MaxRetries)
        (retryLastErrorOf (executeOnce cfg (w.attempt (1 + cfg.MaxRetries).toNat)))) ∧
    (∀ res, executeOnce cfg (w.attempt (1 + cfg.MaxRetries).toNat) = .ok res →
      retryLastErrorOf (.ok res) = .exitedWithCode res.ExitCode) := by
  constructor
  · unfold Execute
    rw [hv, if_neg (by omega)]
    rw [retryLoop_all_fail cfg w (1 + cfg.MaxRetries).toNat 1 none (by omega)
      (fun j hj1 hj2 => hall j hj1 (by omega))]
    have harith : 1 + (1 + cfg.MaxRetries).toNat - 1 = (1 + cfg.MaxRetries).toNat := by
      omega
    rw [harith]
    rfl
  · intro res hres
    obtain ⟨code, _, hb⟩ := executeOnce_ok cfg _ res hres
    rw [hb]
    rfl

/-- Witness for C4: the documented scenario (sh -c exit 1, maxRetries 2)
ends in RetryExhaustedError with attempts = 3 and the constructed
exit-code error. -/
theorem execute_retryExhausted_witness :
    Execute retryCfg (steadyWorld exitBehavior) =
      .error (.retryExhausted (buildCommandString "sh" ["-c", "exit 1"]) 3
        (.exitedWithCode 3)) :=
  (execute_retryExhausted retryCfg (steadyWorld exitBehavior) rfl (by decide)
    (fun j hj1 hj2 => ⟨by show (3 : Int) ≠ 0; decide, rfl, rfl⟩)).1

/-- Peeling failed-and-proceeding attempts off the front of the loop. -/
theorem retryLoop_peel (cfg : ToolConfig) (w : World) :
    ∀ (k i n : Nat) (last : Option (Except AttemptError ExecutionResult)),
      (∀ j, i ≤ j → j < i + k → attemptFails cfg w j ∧ noCancellation w j) →
      ∃ last2, retryLoop cfg w (n + k) i last = retryLoop cfg w n (i + k) last2 := by
  intro k
  induction k with
  | zero => intro i n last _; exact ⟨last, rfl⟩
  | succ k ih =>
    intro i n last hall
    have hstep := retryLoop_advance cfg w (n + k) i last
      (hall i le_rfl (by omega)).1 (hall i le_rfl (by omega)).2
    have harith : n + (k + 1) = (n + k) + 1 := by omega
    rw [harith, hstep]
    obtain ⟨last2, h2⟩ := ih (i + 1) n (some (executeOnce cfg (w.attempt i)))
      (fun j hj1 hj2 => hall j (by omega) (by omega))
    refine ⟨last2, h2.trans ?_⟩
    have harith2 : i + 1 + k = i + (k + 1) := by omega
    rw [harith2]

/-- C5 counterexample: the claim as stated is false.  In a two-attempt
session, attempt 1 times out on its own deadline (a TimeoutError) and the
ambient context is already cancelled at the post-attempt ctx.Err() check;
Execute then returns the attempt's own TimeoutError — not a cancellation
classification — even though the ambient context was cancelled during the
retry session. -/
theorem execute_cancellation_claim_counterexample :
    timeoutRetryCfg.MaxRetries = 1 ∧
    cancelAfterTimeoutWorld.ambientErr 1 = .canceled ∧
    Execute timeoutRetryCfg cancelAfterTimeoutWorld =
      .error (.attempt (.timeoutErr (buildCommandString "sleep" ["5"]) 5)) ∧
    execErrorIsCancellation
      (.attempt (.timeoutErr (buildCommandString "sleep" ["5"]) 5)) = false :=
  ⟨rfl, rfl, rfl, rfl⟩

/-- C5 (amended): if the ambient context is cancelled at any point during
a retry session — after the previous attempts failed without cancellation
— Execute stops immediately, makes no further attempts (the return value
depends on nothing after attempt `i`), and never synthesizes a
RetryExhaustedError.  Observed while waiting out the inter-attempt delay,
or at the post-attempt check after an attempt that produced an outcome,
the cancellation classification (the ambient context error, wrapped only
in the context-done message) is returned; observed at the post-attempt
check after an attempt that itself returned an error, that attempt error
is returned unchanged — which need not be a cancellation. -/
theorem execute_cancellation_stops_retries (cfg : ToolConfig) (w : World) (i : Nat)
    (hv : cfg.Validate = none) (hr : 0 < cfg.MaxRetries)
    (h1 : 1 ≤ i) (hle : i ≤ (1 + cfg.MaxRetries).toNat)
    (hprev : ∀ j, 1 ≤ j → j < i → attemptFails cfg w j ∧ noCancellation w j) :
    (attemptFails cfg w i → w.ambientErr i = .noErr →
     i < (1 + cfg.MaxRetries).toNat → 0 < cfg.RetryDelay →
     w.delayInterrupted i = true →
      Execute cfg w = .error (.contextDoneDuringRetryDelay (w.ambientErrAtDelay i)) ∧
      execErrorIsCancellation (.contextDoneDuringRetryDelay (w.ambientErrAtDelay i)) = true ∧
      isRetryExhaustedError (.contextDoneDuringRetryDelay (w.ambientErrAtDelay i)) = false) ∧
    (∀ res, executeOnce cfg (w.attempt i) = .ok res → res.ExitCode ≠ 0 →
     w.ambientErr i ≠ .noErr →
      Execute cfg w = .error (.contextDone (w.ambientErr i)) ∧
      execErrorIsCancellation (.contextDone (w.ambientErr i)) = true ∧
      isRetryExhaustedError (.contextDone (w.ambientErr i)) = false) ∧
    (∀ e, executeOnce cfg (w.attempt i) = .error e → isNotFoundError e = false →
     w.ambientErr i ≠ .noErr →
      Execute cfg w = .error (.attempt e) ∧
      isRetryExhaustedError (.attempt e) = false) := by
  obtain ⟨last2, hpeel⟩ := retryLoop_peel cfg w (i - 1) 1
    ((1 + cfg.MaxRetries).toNat - (i - 1)) none
    (fun j hj1 hj2 => hprev j hj1 (by omega))
  have e1 : Execute cfg w = retryLoop cfg w (1 + cfg.MaxRetries).toNat 1 none := by
    unfold Execute
    rw [hv, if_neg (by omega)]
  have hexec : Execute cfg w =
      retryLoop cfg w (((1 + cfg.MaxRetries).toNat - i) + 1) i last2 := by
    rw [e1]
    conv_lhs => rw [show (1 + cfg.MaxRetries).toNat
        = ((1 + cfg.MaxRetries).toNat - (i - 1)) + (i - 1) from by omega]
    rw [hpeel]
    conv_lhs => rw [show 1 + (i - 1) = i from by omega,
      show (1 + cfg.MaxRetries).toNat - (i - 1)
        = ((1 + cfg.MaxRetries).toNat - i) + 1 from by omega]
  refine ⟨?_, ?_, ?_⟩
  · intro hfail hamb hlt hd hint
    refine ⟨?_, rfl, rfl⟩
    rw [hexec, retryLoop]
    have hmz : (1 + cfg.MaxRetries).toNat - i ≠ 0 := by omega
    cases hE : executeOnce cfg (w.attempt i) with
    | ok result =>
      have hcode : result.ExitCode ≠ 0 := by
        unfold attemptFails at hfail
        rw [hE] at hfail
        exact hfail
      simp [hE, hcode, hamb, hd, hint, hmz]
    | error e =>
      have hnf : isNotFoundError e = false := by
        unfold attemptFails at hfail
        rw [hE] at hfail
        exact hfail
      simp [hE, hnf, hamb, hd, hint, hmz]
  · intro res hres hcode hamb
    refine ⟨?_, rfl, rfl⟩
    rw [hexec, retryLoop]
    simp [hres, hcode, hamb]
  · intro e he hnf hamb
    refine ⟨?_, rfl⟩
    rw [hexec, retryLoop]
    simp [he, hnf, hamb]

/-- Witness for the amended C5: cancellation during the first delay of a
two-retry session returns the cancellation wrap at once, and cancellation
observed after an attempt that timed out on its own returns that
TimeoutError unchanged. -/
theorem execute_cancellation_stops_retries_witness :
    Execute retryCfg delayCancelWorld =
      .error (.contextDoneDuringRetryDelay .canceled) ∧
    Execute timeoutRetryCfg cancelAfterTimeoutWorld =
      .error (.attempt (.timeoutErr (buildCommandString "sleep" ["5"]) 5)) :=
  ⟨((execute_cancellation_stops_retries retryCfg delayCancelWorld 1 rfl (by decide)
      le_rfl (by decide)
      (fun j hj1 hj2 => absurd (Nat.lt_of_lt_of_le hj2 hj1) (Nat.lt_irrefl j))).1
      (by show (3 : Int) ≠ 0; decide) rfl (by decide) (by decide) rfl).1,
   ((execute_cancellation_stops_retries timeoutRetryCfg cancelAfterTimeoutWorld 1 rfl
      (by decide) le_rfl (by decide)
      (fun j hj1 hj2 => absurd (Nat.lt_of_lt_of_le hj2 hj1) (Nat.lt_irrefl j))).2.2
      (.timeoutErr (buildCommandString "sleep" ["5"]) 5) rfl rfl (by decide)).1⟩

/-! ## Output capping (C8) -/

/-- Invariant of chaining limitedWriter.Write over a chunk sequence: the
underlying buffer receives exactly the first `m` (budget) bytes of the
concatenated stream, and the truncation flag ends up set exactly when the
stream is longer than the budget (given that the process never issues an
empty write). -/
theorem limitedWriter_foldl (chunks : List (List Nat)) :
    ∀ (B : List Nat) (m : Int) (t : Bool), 0 ≤ m →
      (∀ p ∈ chunks, p ≠ []) →
      (chunks.foldl (fun lw p => (limitedWriter.Write lw p).1) ⟨B, m, t⟩).buf
          = B ++ chunks.flatten.take m.toNat ∧
      (chunks.foldl (fun lw p => (limitedWriter.Write lw p).1) ⟨B, m, t⟩).truncated
          = (t || decide (m < (chunks.flatten.length : Int))) := by
  induction chunks with
  | nil =>
    intro B m t hm _
    constructor
    · simp
    · have hneg : decide (m < ((List.flatten ([] : List (List Nat))).length : Int)) = false := by
        rw [decide_eq_false_iff_not]
        simp
        omega
      rw [hneg, Bool.or_false, List.foldl_nil]
  | cons p rest ih =>
    intro B m t hm hne
    have hpne : p ≠ [] := hne p (List.mem_cons_self p rest)
    have hplen : 0 < p.length := List.length_pos.mpr hpne
    rw [List.foldl_cons]
    by_cases h0 : m ≤ 0
    · have hm0 : m = 0 := le_antisymm h0 hm
      subst hm0
      have hw : (limitedWriter.Write ⟨B, 0, t⟩ p).1 = ⟨B, 0, true⟩ := by
        simp [limitedWriter.Write]
      rw [hw]
      obtain ⟨h1, h2⟩ := ih B 0 true le_rfl (fun q hq => hne q (List.mem_cons_of_mem _ hq))
      constructor
      · rw [h1]; simp
      · have hlenN : 0 < (p :: rest).flatten.length := by
          rw [List.flatten_cons, List.length_append]
          omega
        have hlen : (0 : Int) < ((p :: rest).flatten.length : Int) := by
          exact_mod_cast hlenN
        rw [h2, Bool.true_or, decide_eq_true hlen, Bool.or_true]
    · push_neg at h0
      by_cases hbig : m < (p.length : Int)
      · have hw : (limitedWriter.Write ⟨B, m, t⟩ p).1 =
            ⟨B ++ p.take m.toNat, 0, true⟩ := by
          simp [limitedWriter.Write, not_le.mpr h0, hbig]
        rw [hw]
        obtain ⟨h1, h2⟩ := ih (B ++ p.take m.toNat) 0 true le_rfl
          (fun q hq => hne q (List.mem_cons_of_mem _ hq))
        constructor
        · rw [h1]
          have htk : (p ++ rest.flatten).take m.toNat = p.take m.toNat := by
            apply List.take_append_of_le_length
            omega
          rw [List.flatten_cons, htk]
          simp
        · have hlenN : p.length ≤ (p :: rest).flatten.length := by
            rw [List.flatten_cons, List.length_append]
            omega
          have hlen : m < (((p :: rest).flatten.length : Nat) : Int) :=
            lt_of_lt_of_le hbig (by exact_mod_cast hlenN)
          rw [h2, Bool.true_or, decide_eq_true hlen, Bool.or_true]
      · push_neg at hbig
        have hw : (limitedWriter.Write ⟨B, m, t⟩ p).1 =
            ⟨B ++ p, m - p.length, t⟩ := by
          simp [limitedWriter.Write, not_le.mpr h0, not_lt.mpr hbig]
        rw [hw]
        obtain ⟨h1, h2⟩ := ih (B ++ p) (m - p.length) t (by omega)
          (fun q hq => hne q (List.mem_cons_of_mem _ hq))
        constructor
        · rw [h1]
          have htk : (p ++ rest.flatten).take m.toNat
              = p ++ rest.flatten.take (m.toNat - p.length) := by
            rw [List.take_append_eq_append_take]
            congr 1
            apply List.take_of_length_le
            omega
          have hnat : (m - (p.length : Int)).toNat = m.toNat - p.length := by omega
          rw [List.flatten_cons, htk, hnat, List.append_assoc]
        · rw [h2]
          congr 1
          rw [decide_eq_decide]
          rw [List.flatten_cons, List.length_append]
          push_cast
          omega

/-- A positive cap captures exactly the cap-long prefix of the stream and
flags truncation exactly when the stream exceeded the cap. -/
theorem captureStream_pos (c : Int) (chunks : List (List Nat)) (hc : 0 < c)
    (hne : ∀ p ∈ chunks, p ≠ []) :
    captureStream c chunks =
      (chunks.flatten.take c.toNat, decide (c < (chunks.flatten.length : Int))) := by
  unfold captureStream
  rw [if_pos hc]
  obtain ⟨h1, h2⟩ := limitedWriter_foldl chunks [] c false (le_of_lt hc) hne
  dsimp only
  rw [Prod.ext_iff]
  refine ⟨?_, ?_⟩
  · rw [h1]; simp
  · rw [h2]; simp

/-- C8: with a positive stdout cap `c`, executeCommand captures exactly
the first min(n, c) bytes of the n bytes the process produced and sets
StdoutTruncated exactly when n > c; with cap 0 it captures all bytes and
leaves the flag false; symmetrically for stderr with the stderr cap
(assuming the process never issues an empty write, which io.Copy does
not). -/
theorem executeCommand_output_caps (cfg : ToolConfig) (so se : List (List Nat))
    (hso : ∀ p ∈ so, p ≠ []) (hse : ∀ p ∈ se, p ≠ []) :
    (0 < cfg.MaxStdoutBytes →
      (executeCommandCapture cfg so se).1
        = (so.flatten.take cfg.MaxStdoutBytes.toNat,
           decide (cfg.MaxStdoutBytes < (so.flatten.length : Int)))) ∧
    (cfg.MaxStdoutBytes = 0 →
      (executeCommandCapture cfg so se).1 = (so.flatten, false)) ∧
    (0 < cfg.MaxStderrBytes →
      (executeCommandCapture cfg so se).2
        = (se.flatten.take cfg.MaxStderrBytes.toNat,
           decide (cfg.MaxStderrBytes < (se.flatten.length : Int)))) ∧
    (cfg.MaxStderrBytes = 0 →
      (executeCommandCapture cfg so se).2 = (se.flatten, false)) := by
  refine ⟨?_, ?_, ?_, ?_⟩
  · intro hc
    exact captureStream_pos cfg.MaxStdoutBytes so hc hso
  · intro hz
    show captureStream cfg.MaxStdoutBytes so = (so.flatten, false)
    rw [hz]
    simp [captureStream]
  · intro hc
    exact captureStream_pos cfg.MaxStderrBytes se hc hse
  · intro hz
    show captureStream cfg.MaxStderrBytes se = (se.flatten, false)
    rw [hz]
    simp [captureStream]

/-- Witness for C8: the documented scenario — a 10-byte cap against a
100-byte producer captures exactly 10 bytes with the flag set, no cap
captures all 100 bytes with the flag clear. -/
theorem executeCommand_output_caps_witness :
    (executeCommandCapture capCfg [List.replicate 100 7] [List.replicate 100 7]).1
      = (List.replicate 10 7, true) ∧
    (executeCommandCapture capCfg [List.replicate 100 7] [List.replicate 100 7]).2
      = (List.replicate 100 7, false) := by
  have h := executeCommand_output_caps capCfg
    [List.replicate 100 7] [List.replicate 100 7] (by decide) (by decide)
  constructor
  · rw [h.1 (by decide)]
    decide
  · rw [h.2.2.2 rfl]
    decide

/-! ## Bounded fan-out (C2, C9) -/

/-- Effect of a point update on countP, given the element replaced. -/
theorem countP_set_of_getElem? {α : Type} (P : α → Bool) (l : List α) (t : Nat)
    (a b : α) (h : l[t]? = some a) :
    (l.set t b).countP P
      = l.countP P + (if P b then 1 else 0) - (if P a then 1 else 0) := by
  induction l generalizing t with
  | nil => simp at h
  | cons x xs ih =>
    cases t with
    | zero =>
      have hx : x = a := by simpa using h
      subst hx
      simp only [List.set_cons_zero, List.countP_cons]
      by_cases hb : P b <;> by_cases ha : P x <;> simp [hb, ha]
    | succ t =>
      simp only [List.getElem?_cons_succ] at h
      have hmem : a ∈ xs := List.getElem?_mem h
      rw [List.set_cons_succ, List.countP_cons, List.countP_cons, ih t h]
      by_cases ha : P a
      · have hpos : 0 < xs.countP P := List.countP_pos_iff.mpr ⟨a, hmem, ha⟩
        by_cases hb : P b <;> · simp [hb, ha]; try omega
      · by_cases hb : P b <;> · simp [hb, ha]; try omega

/-- The in-flight predicate evaluated on each phase. -/
theorem pRunning_pending :
    (TaskPhase.pending == TaskPhase.acquired || TaskPhase.pending == TaskPhase.written)
      = false := by decide

theorem pRunning_acquired :
    (TaskPhase.acquired == TaskPhase.acquired || TaskPhase.acquired == TaskPhase.written)
      = true := by decide

theorem pRunning_written :
    (TaskPhase.written == TaskPhase.acquired || TaskPhase.written == TaskPhase.written)
      = true := by decide

theorem pRunning_released :
    (TaskPhase.released == TaskPhase.acquired || TaskPhase.released == TaskPhase.written)
      = false := by decide

/-- No task is in flight before the fan-out starts. -/
theorem countRunning_replicate_pending (n : Nat) :
    countRunning (List.replicate n .pending) = 0 := by
  induction n with
  | zero => rfl
  | succ n ih =>
    rw [List.replicate_succ]
    unfold countRunning at ih ⊢
    rw [List.countP_cons, ih, pRunning_pending]
    simp

/-- One scheduler step preserves the fan-out invariant. -/
theorem fanoutStep_inv (cap : Nat) (configs : List ToolConfig)
    (run : Nat → ToolConfig → Except ExecError ExecutionResult)
    (s : FanoutState) (t : Nat) (h : FanoutInv cap configs run s) :
    FanoutInv cap configs run (fanoutStep cap configs run s t) := by
  obtain ⟨hp, hr, hres, hsem, hcap⟩ := h
  unfold fanoutStep
  cases hpt : s.phases[t]? with
  | none => exact ⟨hp, hr, hres, hsem, hcap⟩
  | some ph =>
    have htlt : t < s.phases.length := (List.getElem?_eq_some_iff.mp hpt).1
    have htcfg : t < configs.length := hp ▸ htlt
    have htres : t < s.results.length := by omega
    cases ph with
    | pending =>
      by_cases hlt : s.sem < cap
      · rw [if_pos hlt]
        refine ⟨by simpa using hp, hr, ?_, ?_, by show s.sem + 1 ≤ cap; omega⟩
        · intro u hu
          by_cases hut : u = t
          · subst hut
            rw [List.getElem?_set_self htlt]
            constructor
            · rintro (h' | h') <;> simp at h'
            · intro _
              exact (hres u hu).2 (Or.inl hpt)
          · rw [List.getElem?_set_ne (fun he => hut he.symm)]
            exact hres u hu
        · show s.sem + 1 = countRunning (s.phases.set t .acquired)
          unfold countRunning at hsem ⊢
          rw [countP_set_of_getElem? _ s.phases t _ _ hpt,
            pRunning_acquired, pRunning_pending]
          simp
          omega
      · rw [if_neg hlt]
        exact ⟨hp, hr, hres, hsem, hcap⟩
    | acquired =>
      cases hct : configs[t]? with
      | none =>
        have : configs.length ≤ t := by
          by_contra hcon
          rw [List.getElem?_eq_none_iff] at hct
          omega
        omega
      | some cfg =>
        refine ⟨by simpa using hp, by simpa using hr, ?_, ?_, ?_⟩
        · intro u hu
          by_cases hut : u = t
          · subst hut
            rw [List.getElem?_set_self htlt]
            constructor
            · intro _ cfg2 hcfg2
              rw [List.getElem?_set_self htres]
              rw [hct] at hcfg2
              cases hcfg2
              rfl
            · rintro (h' | h') <;> simp at h'
          · rw [List.getElem?_set_ne (fun he => hut he.symm),
              List.getElem?_set_ne (fun he => hut he.symm)]
            exact hres u hu
        · show s.sem = countRunning (s.phases.set t .written)
          unfold countRunning at hsem ⊢
          rw [countP_set_of_getElem? _ s.phases t _ _ hpt,
            pRunning_acquired, pRunning_written]
          simp
          omega
        · exact hcap
    | written =>
      have hpos : 0 < countRunning s.phases :=
        List.countP_pos_iff.mpr ⟨.written, List.getElem?_mem hpt, by decide⟩
      refine ⟨by simpa using hp, hr, ?_, ?_, by show s.sem - 1 ≤ cap; omega⟩
      · intro u hu
        by_cases hut : u = t
        · subst hut
          rw [List.getElem?_set_self htlt]
          constructor
          · intro _ cfg2 hcfg2
            exact (hres u hu).1 (Or.inl hpt) cfg2 hcfg2
          · rintro (h' | h') <;> simp at h'
        · rw [List.getElem?_set_ne (fun he => hut he.symm)]
          exact hres u hu
      · show s.sem - 1 = countRunning (s.phases.set t .released)
        unfold countRunning at hsem hpos ⊢
        rw [countP_set_of_getElem? _ s.phases t _ _ hpt,
          pRunning_written, pRunning_released]
        simp
        omega
    | released =>
      exact ⟨hp, hr, hres, hsem, hcap⟩

/-- The initial state satisfies the invariant. -/
theorem fanoutInit_inv (cap : Nat) (configs : List ToolConfig)
    (run : Nat → ToolConfig → Except ExecError ExecutionResult) :
    FanoutInv cap configs run (fanoutInit configs.length) := by
  refine ⟨by simp [fanoutInit], by simp [fanoutInit], ?_, ?_, by show 0 ≤ cap; omega⟩
  · intro u hu
    constructor
    · rintro (h' | h') <;>
        · rw [show (fanoutInit configs.length).phases = List.replicate configs.length .pending
            from rfl, List.getElem?_replicate_of_lt hu] at h'
          simp at h'
    · intro _
      show (List.replicate configs.length (none : Option ConcurrentResult))[u]? = some none
      rw [List.getElem?_replicate_of_lt hu]
  · show 0 = countRunning (List.replicate configs.length .pending)
    rw [countRunning_replicate_pending]

/-- Every reachable fan-out state satisfies the invariant. -/
theorem fanoutRun_inv (cap : Nat) (configs : List ToolConfig)
    (run : Nat → ToolConfig → Except ExecError ExecutionResult) (sched : List Nat) :
    FanoutInv cap configs run (fanoutRun cap configs run sched) := by
  suffices h : ∀ (l : List Nat) (s : FanoutState), FanoutInv cap configs run s →
      FanoutInv cap configs run (l.foldl (fanoutStep cap configs run) s) by
    exact h sched _ (fanoutInit_inv cap configs run)
  intro l
  induction l with
  | nil => intro s hs; exact hs
  | cons a as ih =>
    intro s hs
    exact ih _ (fanoutStep_inv cap configs run s a hs)

/-- The normalized concurrency bound is max(K, 1). -/
theorem normConcurrency_toNat (K : Int) :
    ((normConcurrency K).toNat : Int) = max K 1 := by
  unfold normConcurrency
  rcases le_or_lt K 0 with h | h
  · rw [if_pos h, max_eq_right (by omega : K ≤ 1)]
    rfl
  · rw [if_neg (by omega), Int.toNat_of_nonneg (by omega),
      max_eq_left (by omega : 1 ≤ K)]

/-- C9: during one ExecuteConcurrent call the number of simultaneously
in-flight executions of the wrapped executor never exceeds max(K, 1): in
every state reachable under any schedule, the tasks between semaphore
acquire and release number at most the (normalized) semaphore capacity. -/
theorem executeConcurrent_bounded (configs : List ToolConfig) (maxConcurrency : Int)
    (run : Nat → ToolConfig → Except ExecError ExecutionResult) (sched : List Nat) :
    (countRunning
        (fanoutRun (normConcurrency maxConcurrency).toNat configs run sched).phases : Int)
      ≤ max maxConcurrency 1 := by
  obtain ⟨_, _, _, hsem, hcap⟩ :=
    fanoutRun_inv (normConcurrency maxConcurrency).toNat configs run sched
  rw [← hsem, ← normConcurrency_toNat maxConcurrency]
  exact_mod_cast hcap

/-- C2: whenever an ExecuteConcurrent call completes (every task reached
its released phase), the returned slice has exactly one entry per input,
and entry i is exactly the ConcurrentResult of executing input i —
regardless of the schedule under which the tasks ran, for every N and
every K including K ≤ 0. -/
theorem executeConcurrent_complete (configs : List ToolConfig) (maxConcurrency : Int)
    (run : Nat → ToolConfig → Except ExecError ExecutionResult) (sched : List Nat)
    (hdone : (fanoutRun (normConcurrency maxConcurrency).toNat configs run sched).phases
      = List.replicate configs.length .released) :
    ExecuteConcurrent configs maxConcurrency run sched = expectedResults configs run ∧
    (ExecuteConcurrent configs maxConcurrency run sched).length = configs.length := by
  obtain ⟨hp, hr, hres, _, _⟩ :=
    fanoutRun_inv (normConcurrency maxConcurrency).toNat configs run sched
  by_cases hN : configs.length = 0
  · rw [ExecuteConcurrent, if_pos hN]
    constructor
    · rw [expectedResults, hN]
      rfl
    · rw [hN]
      rfl
  · rw [ExecuteConcurrent, if_neg hN]
    have hmain :
        (fanoutRun (normConcurrency maxConcurrency).toNat configs run sched).results
          = expectedResults configs run := by
      apply List.ext_getElem?
      intro u
      by_cases hu : u < configs.length
      · have hph :
            (fanoutRun (normConcurrency maxConcurrency).toNat configs run sched).phases[u]?
              = some .released := by
          rw [hdone]
          exact List.getElem?_replicate_of_lt hu
        cases hcu : configs[u]? with
        | none =>
          rw [List.getElem?_eq_none_iff] at hcu
          omega
        | some cfg =>
          rw [(hres u hu).1 (Or.inr hph) cfg hcu]
          rw [expectedResults, List.getElem?_map, List.getElem?_range hu]
          simp [hcu]
      · have h1 :
            (fanoutRun (normConcurrency maxConcurrency).toNat configs run sched).results.length
              ≤ u := by
          rw [hr]
          omega
        have h2 : (expectedResults configs run).length ≤ u := by
          rw [expectedResults, List.length_map, List.length_range]
          omega
        rw [List.getElem?_eq_none h1, List.getElem?_eq_none h2]
    refine ⟨hmain, ?_⟩
    rw [hmain]
    rw [expectedResults, List.length_map, List.length_range]

/-- Witness for C2: two tasks (one succeeding, one failing) under bound 1
and a sequential schedule produce exactly the indexed results, length 2. -/
theorem executeConcurrent_complete_witness :
    ExecuteConcurrent fanCfgs 1 fanRun fanSched = expectedResults fanCfgs fanRun ∧
    (ExecuteConcurrent fanCfgs 1 fanRun fanSched).length = 2 :=
  executeConcurrent_complete fanCfgs 1 fanRun fanSched (by rfl)

end Cmdexec
